import Mathlib

/-!
Verification of the wots-rs Winternitz one-time signature implementation:
32 hash chains of 32-byte values, chain length 256, SHA-256 as both the
message-digest function and the chain-step function.
-/

set_option maxRecDepth 100000

namespace Wots

/-! ### SHA-256 (the `sha256_rs::sha256` dependency, modelled concretely) -/

/-- Truncate to a 32-bit word. -/
def w32 (x : Nat) : Nat := x % 4294967296

/-- Right rotation of a 32-bit word by `n` bits. -/
def rotr (n x : Nat) : Nat := w32 ((x >>> n) ||| (x <<< (32 - n)))

def ch (x y z : Nat) : Nat := (x &&& y) ^^^ ((x ^^^ 4294967295) &&& z)

def maj (x y z : Nat) : Nat := (x &&& y) ^^^ (x &&& z) ^^^ (y &&& z)

def bsig0 (x : Nat) : Nat := rotr 2 x ^^^ rotr 13 x ^^^ rotr 22 x

def bsig1 (x : Nat) : Nat := rotr 6 x ^^^ rotr 11 x ^^^ rotr 25 x

def ssig0 (x : Nat) : Nat := rotr 7 x ^^^ rotr 18 x ^^^ (x >>> 3)

def ssig1 (x : Nat) : Nat := rotr 17 x ^^^ rotr 19 x ^^^ (x >>> 10)

/-- The 64 SHA-256 round constants (FIPS 180-4, in decimal). -/
def kConst : List Nat :=
  [1116352408, 1899447441, 3049323471, 3921009573,
   961987163, 1508970993, 2453635748, 2870763221,
   3624381080, 310598401, 607225278, 1426881987,
   1925078388, 2162078206, 2614888103, 3248222580,
   3835390401, 4022224774, 264347078, 604807628,
   770255983, 1249150122, 1555081692, 1996064986,
   2554220882, 2821834349, 2952996808, 3210313671,
   3336571891, 3584528711, 113926993, 338241895,
   666307205, 773529912, 1294757372, 1396182291,
   1695183700, 1986661051, 2177026350, 2456956037,
   2730485921, 2820302411, 3259730800, 3345764771,
   3516065817, 3600352804, 4094571909, 275423344,
   430227734, 506948616, 659060556, 883997877,
   958139571, 1322822218, 1537002063, 1747873779,
   1955562222, 2024104815, 2227730452, 2361852424,
   2428436474, 2756734187, 3204031479, 3329325298]

/-- The SHA-256 initial hash state (FIPS 180-4, in decimal). -/
def hInit : List Nat :=
  [1779033703, 3144134277, 1013904242, 2773480762,
   1359893119, 2600822924, 528734635, 1541459225]

/-- SHA-256 padding: append `0x80`, zero bytes up to 56 mod 64, then the
64-bit big-endian bit length. -/
def padBytes (msg : List Nat) : List Nat :=
  let L := msg.length
  let z := (119 - L % 64) % 64
  msg ++ [128] ++ List.replicate z 0 ++
    (List.range 8).map (fun i => ((8 * L) >>> (56 - 8 * i)) % 256)

/-- Group bytes into big-endian 32-bit words, four bytes per word. -/
def bytesToWords : List Nat → List Nat
  | a :: b :: c :: d :: rest => (((a * 256 + b) * 256 + c) * 256 + d) :: bytesToWords rest
  | _ => []

/-- Split a word list into blocks of sixteen words. -/
def blockify (ws : List Nat) : List (List Nat) :=
  if h : ws = [] then [] else ws.take 16 :: blockify (ws.drop 16)
termination_by ws.length
decreasing_by
  simp only [List.length_drop]
  exact Nat.sub_lt (List.length_pos.mpr h) (by norm_num)

/-- Extend the sixteen-word message schedule by `n` further words. -/
def wExtend : Nat → List Nat → List Nat
  | 0, w => w
  | n + 1, w =>
    let L := w.length
    let nw := w32 (ssig1 (w.getD (L - 2) 0) + w.getD (L - 7) 0 +
      ssig0 (w.getD (L - 15) 0) + w.getD (L - 16) 0)
    wExtend n (w ++ [nw])

/-- One SHA-256 round on the eight-word working state. -/
def roundStep (st : List Nat) (kw : Nat × Nat) : List Nat :=
  let a := st.getD 0 0
  let b := st.getD 1 0
  let c := st.getD 2 0
  let d := st.getD 3 0
  let e := st.getD 4 0
  let f := st.getD 5 0
  let g := st.getD 6 0
  let h := st.getD 7 0
  let t1 := w32 (h + bsig1 e + ch e f g + kw.1 + kw.2)
  let t2 := w32 (bsig0 a + maj a b c)
  [w32 (t1 + t2), a, b, c, w32 (d + t1), e, f, g]

/-- Compress one sixteen-word block into the running hash state. -/
def compress (hs : List Nat) (block16 : List Nat) : List Nat :=
  let w := wExtend 48 block16
  let fin := ((kConst.zip w).foldl roundStep hs)
  List.zipWith (fun a b => w32 (a + b)) hs fin

/-- Serialize one 32-bit word to four big-endian bytes. -/
def wordBytes (w : Nat) : List Nat :=
  [(w >>> 24) % 256, (w >>> 16) % 256, (w >>> 8) % 256, w % 256]

/-- Serialize a word list to bytes, big-endian within each word. -/
def wordsToBytes : List Nat → List Nat
  | [] => []
  | w :: ws => wordBytes w ++ wordsToBytes ws

/-- SHA-256 of a byte sequence: the 32-byte digest. -/
def sha256 (msg : List Nat) : List Nat :=
  wordsToBytes ((blockify (bytesToWords (padBytes msg))).foldl compress hInit)

/-! ### The WOTS data model

The Rust types wrap `[[u8; 32]; 32]`: 32 chain blocks of 32 bytes. A block is
modelled as a byte list, the 32-slot array as a function from `Fin 32`. -/

/-- The `[[u8; 32]; 32]` payload shared by the three entity types. -/
abbrev KeyBytes := Fin 32 → List Nat

/-- The `for _ in 0..n { key = sha256(&key) }` chain-iteration loop:
`n`-fold application of `sha256`. -/
def chain : Nat → List Nat → List Nat
  | 0, b => b
  | n + 1, b => chain n (sha256 b)

/-- `SecretKey` from src/secret.rs. -/
structure SecretKey where
  key : KeyBytes

/-- `PublicKey` from src/public.rs. -/
structure PublicKey where
  key : KeyBytes

/-- `Signature` from src/signature.rs. -/
structure Signature where
  key : KeyBytes

/-- `Keypair` from src/keypair.rs. -/
structure Keypair where
  secret : SecretKey
  public : PublicKey

instance : DecidableEq SecretKey :=
  fun a b => decidable_of_iff (a.key = b.key) (by cases a; cases b; simp)

instance : DecidableEq PublicKey :=
  fun a b => decidable_of_iff (a.key = b.key) (by cases a; cases b; simp)

instance : DecidableEq Signature :=
  fun a b => decidable_of_iff (a.key = b.key) (by cases a; cases b; simp)

/-! ### Byte accessors: `to_bytes` and the `From<[[u8; 32]; 32]>` impls -/

def SecretKey.toBytes (sk : SecretKey) : KeyBytes := sk.key

def SecretKey.ofBytes (b : KeyBytes) : SecretKey := ⟨b⟩

def PublicKey.toBytes (pk : PublicKey) : KeyBytes := pk.key

def PublicKey.ofBytes (b : KeyBytes) : PublicKey := ⟨b⟩

def Signature.toBytes (sig : Signature) : KeyBytes := sig.key

def Signature.ofBytes (b : KeyBytes) : Signature := ⟨b⟩

/-! ### Key generation

`fill_bytes` is called 32 times on a 32-byte buffer; the CSPRNG is modelled as
a byte stream `Nat → Nat`, call `i` consuming stream positions `32*i ..< 32*(i+1)`. -/

/-- `SecretKey::generate` from src/secret.rs. -/
def SecretKey.generate (csprng : Nat → Nat) : SecretKey :=
  ⟨fun i => (List.range 32).map (fun j => csprng (32 * i.val + j) % 256)⟩

/-! ### Signing and verification -/

/-- `SecretKey::sign` from src/secret.rs: digest the message, then iterate
`sha256` on seed `i` for `256 - hash[i]` steps. -/
def SecretKey.sign (sk : SecretKey) (message : List Nat) : Signature :=
  let secret_key := sk.key
  let hash := sha256 message
  ⟨fun i => chain (256 - hash.getD i.val 0) (secret_key i)⟩

/-- `PublicKey::verify` from src/public.rs: digest the message, iterate
`sha256` on signature block `i` for `hash[i]` steps, compare with the stored key. -/
def PublicKey.verify (pk : PublicKey) (message : List Nat) (signature : Signature) : Bool :=
  let s := signature.toBytes
  let hash := sha256 message
  let public_key : KeyBytes := fun i => chain (hash.getD i.val 0) (s i)
  decide (pk.key = public_key)

/-- `impl From<&SecretKey> for PublicKey` from src/public.rs: iterate
`sha256` on each seed for exactly 256 steps. -/
def PublicKey.ofSecretKey (value : SecretKey) : PublicKey :=
  let bytes := value.toBytes
  ⟨fun i => chain 256 (bytes i)⟩

/-! ### The Keypair facade (src/keypair.rs, each method re-inlines the loops) -/

/-- `Keypair::generate` from src/keypair.rs. -/
def Keypair.generate (csprng : Nat → Nat) : Keypair :=
  let secret_key : KeyBytes := fun i => (List.range 32).map (fun j => csprng (32 * i.val + j) % 256)
  let public_key : KeyBytes := fun i => chain 256 (secret_key i)
  ⟨SecretKey.ofBytes secret_key, PublicKey.ofBytes public_key⟩

/-- `Keypair::sign` from src/keypair.rs. -/
def Keypair.sign (kp : Keypair) (message : List Nat) : Signature :=
  let secret_key := kp.secret.toBytes
  let hash := sha256 message
  ⟨fun i => chain (256 - hash.getD i.val 0) (secret_key i)⟩

/-- `Keypair::verify` from src/keypair.rs. -/
def Keypair.verify (kp : Keypair) (message : List Nat) (signature : Signature) : Bool :=
  let s := signature.toBytes
  let hash := sha256 message
  let pkey : KeyBytes := fun i => chain (hash.getD i.val 0) (s i)
  decide (kp.public = PublicKey.ofBytes pkey)

/-! ### Facts about the digest: length 32 and bytes below 256 -/

theorem wordsToBytes_length (ws : List Nat) : (wordsToBytes ws).length = 4 * ws.length := by
  induction ws with
  | nil => rfl
  | cons w ws ih =>
    simp only [wordsToBytes, wordBytes, List.length_append, List.length_cons, ih]
    simp
    ring

theorem mem_wordsToBytes_lt (ws : List Nat) (b : Nat) (hb : b ∈ wordsToBytes ws) : b < 256 := by
  induction ws with
  | nil => simp [wordsToBytes] at hb
  | cons w ws ih =>
    simp only [wordsToBytes, wordBytes, List.mem_append, List.mem_cons,
      List.not_mem_nil, or_false] at hb
    rcases hb with (rfl | rfl | rfl | rfl) | h
    · exact Nat.mod_lt _ (by norm_num)
    · exact Nat.mod_lt _ (by norm_num)
    · exact Nat.mod_lt _ (by norm_num)
    · exact Nat.mod_lt _ (by norm_num)
    · exact ih h

theorem foldl_roundStep_length (l : List (Nat × Nat)) (hs : List Nat) (h : hs.length = 8) :
    (l.foldl roundStep hs).length = 8 := by
  induction l generalizing hs with
  | nil => simpa using h
  | cons p l ih =>
    simp only [List.foldl_cons]
    exact ih _ rfl

theorem compress_length (hs blk : List Nat) (h : hs.length = 8) :
    (compress hs blk).length = 8 := by
  unfold compress
  simp [List.length_zipWith, foldl_roundStep_length _ _ h, h]

theorem foldl_compress_length (blks : List (List Nat)) (hs : List Nat) (h : hs.length = 8) :
    (blks.foldl compress hs).length = 8 := by
  induction blks generalizing hs with
  | nil => simpa using h
  | cons blk blks ih =>
    simp only [List.foldl_cons]
    exact ih _ (compress_length _ _ h)

theorem sha256_length (m : List Nat) : (sha256 m).length = 32 := by
  unfold sha256
  rw [wordsToBytes_length,
    foldl_compress_length (blockify (bytesToWords (padBytes m))) hInit rfl]

theorem sha256_byte_lt (m : List Nat) (i : Nat) : (sha256 m).getD i 0 < 256 := by
  by_cases h : i < (sha256 m).length
  · rw [List.getD_eq_getElem _ _ h]
    exact mem_wordsToBytes_lt _ _ (List.getElem_mem h)
  · rw [List.getD_eq_default _ _ (Nat.le_of_not_lt h)]
    norm_num

/-! ### Chain algebra -/

theorem chain_eq_iterate (n : Nat) (b : List Nat) : chain n b = sha256^[n] b := by
  induction n generalizing b with
  | zero => rfl
  | succ n ih => rw [chain, ih, Function.iterate_succ_apply]

theorem chain_chain (n m : Nat) (b : List Nat) : chain m (chain n b) = chain (n + m) b := by
  rw [chain_eq_iterate, chain_eq_iterate, chain_eq_iterate, ← Function.iterate_add_apply,
    Nat.add_comm]

/-! ### The claims -/

/-- Claim C1: round-trip correctness. For every secret key (any 32x32-byte
array) and every message, verifying the signature produced by `sign` against
the public key derived from the same secret key returns `true`. -/
theorem sign_verify_roundtrip (sk : SecretKey) (m : List Nat) :
    (PublicKey.ofSecretKey sk).verify m (sk.sign m) = true := by
  simp only [PublicKey.verify, PublicKey.ofSecretKey, SecretKey.sign, SecretKey.toBytes,
    Signature.toBytes, decide_eq_true_eq]
  funext i
  rw [chain_chain]
  congr 1
  have := sha256_byte_lt m i.val
  omega

/-- Claim C2: verification semantics. `verify` digests the message with
`sha256`, applies `sha256` exactly `digest[i]` times to signature block `i`,
and returns `true` iff every one of the 32 candidate blocks equals the stored
public-key block; any mismatch anywhere yields `false`. -/
theorem verify_iff (pk : PublicKey) (m : List Nat) (sig : Signature) :
    pk.verify m sig = true ↔
      ∀ i : Fin 32, sha256^[(sha256 m).getD i.val 0] (sig.key i) = pk.key i := by
  simp only [PublicKey.verify, Signature.toBytes, decide_eq_true_eq]
  rw [funext_iff]
  refine forall_congr' fun i => ?_
  rw [chain_eq_iterate, eq_comm]

/-- Claim C3: signing semantics. Block `i` of `sign sk m` is `sha256`
iterated exactly `256 - digest[i]` times on seed `i`, where the iteration
count lies in `1..=256`, blocks indexed in ascending chain order. -/
theorem sign_spec (sk : SecretKey) (m : List Nat) (i : Fin 32) :
    (sk.sign m).key i = sha256^[256 - (sha256 m).getD i.val 0] (sk.key i) ∧
      1 ≤ 256 - (sha256 m).getD i.val 0 ∧ 256 - (sha256 m).getD i.val 0 ≤ 256 := by
  refine ⟨?_, ?_, by omega⟩
  · simp only [SecretKey.sign]
    rw [chain_eq_iterate]
  · have := sha256_byte_lt m i.val
    omega

/-- Claim C4: public-key derivation. Block `i` of the public key derived from
a secret key is `sha256` iterated exactly 256 times on seed `i`. -/
theorem ofSecretKey_spec (sk : SecretKey) (i : Fin 32) :
    (PublicKey.ofSecretKey sk).key i = sha256^[256] (sk.key i) := by
  simp only [PublicKey.ofSecretKey, SecretKey.toBytes]
  rw [chain_eq_iterate]

/-- Claim C5: chain algebra identity. Iterating `sha256` a further
`digest[i]` times on signature block `i` reproduces public-key block `i`
exactly, without going through the boolean `verify`. -/
theorem chain_algebra (sk : SecretKey) (m : List Nat) (i : Fin 32) :
    sha256^[(sha256 m).getD i.val 0] ((sk.sign m).key i) =
      (PublicKey.ofSecretKey sk).key i := by
  simp only [SecretKey.sign, PublicKey.ofSecretKey, SecretKey.toBytes]
  rw [← chain_eq_iterate, chain_chain]
  congr 1
  have := sha256_byte_lt m i.val
  omega

/-- Claim C6: keypair facade. `Keypair::sign` agrees with the secret half's
`sign`, `Keypair::verify` agrees with the public half's `verify`, and
`Keypair::generate` on a given random byte stream yields exactly the secret
key `SecretKey::generate` produces paired with the public key derived from it. -/
theorem keypair_facade :
    (∀ (kp : Keypair) (m : List Nat), kp.sign m = kp.secret.sign m) ∧
    (∀ (kp : Keypair) (m : List Nat) (sig : Signature),
      kp.verify m sig = kp.public.verify m sig) ∧
    (∀ csprng : Nat → Nat, Keypair.generate csprng =
      ⟨SecretKey.generate csprng, PublicKey.ofSecretKey (SecretKey.generate csprng)⟩) := by
  refine ⟨fun kp m => rfl, fun kp m sig => ?_, fun c => rfl⟩
  simp only [Keypair.verify, PublicKey.verify, PublicKey.ofBytes, Signature.toBytes]
  rw [decide_eq_decide]
  obtain ⟨s, ⟨pb⟩⟩ := kp
  simp

/-- Claim C8: byte-array round trips. For each of the three entity types,
converting to bytes and back (in either order) is the identity, and raw
construction accepts any 32x32-byte array without validation. -/
theorem bytes_roundtrip :
    (∀ sk : SecretKey, SecretKey.ofBytes sk.toBytes = sk) ∧
    (∀ b : KeyBytes, (SecretKey.ofBytes b).toBytes = b) ∧
    (∀ pk : PublicKey, PublicKey.ofBytes pk.toBytes = pk) ∧
    (∀ b : KeyBytes, (PublicKey.ofBytes b).toBytes = b) ∧
    (∀ sig : Signature, Signature.ofBytes sig.toBytes = sig) ∧
    (∀ b : KeyBytes, (Signature.ofBytes b).toBytes = b) :=
  ⟨fun _ => rfl, fun _ => rfl, fun _ => rfl, fun _ => rfl, fun _ => rfl, fun _ => rfl⟩

/-- Claim C9: determinism of signing. `sign` is a pure function of the secret
key and the message: two invocations on equal inputs produce identical
signatures, with no internal randomness. -/
theorem sign_deterministic (sk₁ sk₂ : SecretKey) (m₁ m₂ : List Nat)
    (hsk : sk₁ = sk₂) (hm : m₁ = m₂) : sk₁.sign m₁ = sk₂.sign m₂ := by
  rw [hsk, hm]

/-- Witness for claim C9: determinism at the all-zero secret key and the
message "hello". -/
theorem sign_deterministic_witness :
    SecretKey.sign ⟨fun _ => List.replicate 32 0⟩ [104, 101, 108, 108, 111] =
      SecretKey.sign ⟨fun _ => List.replicate 32 0⟩ [104, 101, 108, 108, 111] :=
  sign_deterministic ⟨fun _ => List.replicate 32 0⟩ ⟨fun _ => List.replicate 32 0⟩
    [104, 101, 108, 108, 111] [104, 101, 108, 108, 111] rfl rfl

/-- Claim C10: verification never reads the secret half. Two keypairs with
equal public halves verify every (message, signature) pair identically,
whatever their secret halves. -/
theorem verify_ignores_secret (kp₁ kp₂ : Keypair) (m : List Nat) (sig : Signature)
    (h : kp₁.public = kp₂.public) : kp₁.verify m sig = kp₂.verify m sig := by
  simp only [Keypair.verify, h]

/-- Witness for claim C10: two keypairs sharing a public half but holding
different secret halves verify the same concrete (message, signature) pair
identically. -/
theorem verify_ignores_secret_witness :
    Keypair.verify ⟨⟨fun _ => List.replicate 32 0⟩, ⟨fun _ => List.replicate 32 1⟩⟩
        [104, 101, 108, 108, 111] ⟨fun _ => List.replicate 32 2⟩ =
      Keypair.verify ⟨⟨fun _ => List.replicate 32 3⟩, ⟨fun _ => List.replicate 32 1⟩⟩
        [104, 101, 108, 108, 111] ⟨fun _ => List.replicate 32 2⟩ :=
  verify_ignores_secret
    ⟨⟨fun _ => List.replicate 32 0⟩, ⟨fun _ => List.replicate 32 1⟩⟩
    ⟨⟨fun _ => List.replicate 32 3⟩, ⟨fun _ => List.replicate 32 1⟩⟩
    [104, 101, 108, 108, 111] ⟨fun _ => List.replicate 32 2⟩ rfl

end Wots
